import Mathlib

/-!
Verification of the TETRA downlink receiver decoding pipeline.

This file gives a shallow embedding of the burst synchronizer
(`decoder.cc`), the MAC PDU dissector (`mac.cc`) and the MAC
defragmenter (`macdefrag.cc`), and proves the testable properties of the
specification against it.

Bits are modelled as `Bool` (`true` = 1), bit vectors as `List Bool`,
machine integers as `Nat`/`Int` with explicit wrap where overflow
matters.
-/

namespace Tetra

/-- A PDU is a bit-addressable sequence, MSB first.  Modelled from the
spec: the `Pdu` class itself (`common/pdu.h`) is not part of the sources;
spec section 4.1 describes it as a packed bit sequence with sub-range
extract, append and MSB-first integer-field read. -/
abbrev Pdu := List Bool

namespace Pdu

/-- Modelled from the spec: `get_value(pos, n)` reads `n` bits starting
at `pos`, MSB first.  In this total model a bit read out of range yields
0; every concrete input used below stays in range. -/
def getValue (p : Pdu) (pos : ℕ) : ℕ → ℕ
  | 0 => 0
  | n + 1 => getValue p pos n * 2 + (if p.getD (pos + n) false then 1 else 0)

/-- Modelled from the spec: `from_offset(pdu, offset)` is the shallow
sub-PDU from `offset` to the end (used by loop dissociation). -/
def subFrom (p : Pdu) (pos : ℕ) : Pdu := p.drop pos

/-- Modelled from the spec: `extract(pos, n)` copies the sub-range of
`n` bits starting at `pos`. -/
def extract (p : Pdu) (pos n : ℕ) : Pdu := (p.drop pos).take n

/-- Modelled from the spec: `is_empty` holds iff the PDU has no bits. -/
def isEmpty (p : Pdu) : Bool := List.isEmpty p

end Pdu

/-- TDMA time counter, `common/tetra.h`: time slot `tn`, frame `fn`,
multiframe `mn`. -/
structure TetraTime where
  tn : ℕ
  fn : ℕ
  mn : ℕ
  deriving DecidableEq, Repr

/-- The declared ranges of `TetraTime`: `tn ∈ [1,4]`, `fn ∈ [1,18]`,
`mn ∈ [1,60]`. -/
def validTime (t : TetraTime) : Prop :=
  1 ≤ t.tn ∧ t.tn ≤ 4 ∧ 1 ≤ t.fn ∧ t.fn ≤ 18 ∧ 1 ≤ t.mn ∧ t.mn ≤ 60

instance (t : TetraTime) : Decidable (validTime t) := by
  unfold validTime; infer_instance

/-- `Mac::incrementTn` (`mac.cc`): increment the TDMA counter with
wrap-up, `tn` 4→1 carrying into `fn`, `fn` 18→1 carrying into `mn`,
`mn` wrapping 60→1. -/
def incrementTn (t : TetraTime) : TetraTime :=
  let t1 := { t with tn := t.tn + 1 }
  let t2 := if t1.tn > 4 then { t1 with fn := t1.fn + 1, tn := 1 } else t1
  let t3 := if t2.fn > 18 then { t2 with mn := t2.mn + 1, fn := 1 } else t2
  if t3.mn > 60 then { t3 with mn := 1 } else t3

/-- `Mac::decodeLength` (`mac.cc`): decode the 6-bit length indication
of a MAC-RESOURCE PDU, in octets, per table 21.55 with
`Y2 = Z2 = 1` (pi/4-DQPSK). -/
def decodeLength (val : ℕ) : ℕ :=
  let Y2 : ℕ := 1
  let Z2 : ℕ := 1
  if val = 0b000000 ∨ val = 0b111011 ∨ val = 0b111100 then 0
  else if val ≤ 0b010010 then val * Y2
  else if val ≤ 0b111010 then 18 * Y2 + (val - 18) * Z2
  else if val = 0b111101 then 0
  else if val = 0b111110 then val
  else if val = 0b111111 then val
  else 0

/-- MAC address, `common/tetra.h`: address fields of the current
MAC-RESOURCE / MAC-D-BLCK, with the recorded encryption mode. -/
structure MacAddress where
  addressType : ℕ
  ssi : ℕ
  ussi : ℕ
  smi : ℕ
  eventLabel : ℕ
  usageMarker : ℕ
  encryptionMode : ℕ
  deriving DecidableEq, Repr

/-- State of the MAC defragmenter, `macdefrag.h`: stored address and
start time, fragment count, accumulated SDU and the stopped flag. -/
structure DefragState where
  macAddress : MacAddress
  startTime : TetraTime
  fragmentsCount : ℕ
  sdu : Pdu
  stopped : Bool
  deriving DecidableEq, Repr

namespace MacDefrag

/-- `MacDefrag::start` (`macdefrag.cc`): flush any previous data, store
the address (which carries the encryption mode at this point) and the
time slot, clear the buffer and leave stopped mode. -/
def start (address : MacAddress) (timeSlot : TetraTime) (_s : DefragState) :
    DefragState :=
  { macAddress := address
    startTime := timeSlot
    fragmentsCount := 0
    sdu := []
    stopped := false }

/-- `MacDefrag::stop` (`macdefrag.cc`): clean stop, clearing the buffer
and the fragment count. -/
def stop (s : DefragState) : DefragState :=
  { s with stopped := true, fragmentsCount := 0, sdu := [] }

/-- `MacDefrag::append` (`macdefrag.cc`): in stopped mode the fragment
is dropped; on an SSI mismatch the defragmenter stops; otherwise the
fragment is concatenated and the fragment count incremented.
`Pdu::append` is modelled from the spec as concatenation. -/
def append (sdu : Pdu) (address : MacAddress) (s : DefragState) :
    DefragState :=
  if s.stopped then s
  else if address.ssi ≠ s.macAddress.ssi then stop s
  else { s with sdu := s.sdu ++ sdu, fragmentsCount := s.fragmentsCount + 1 }

/-- `MacDefrag::getSdu` (`macdefrag.cc`): in stopped mode the returned
PDU is empty and the output encryption mode and usage marker are not
written (`none` here); otherwise the accumulated SDU is returned
together with the stored address's encryption mode and usage marker. -/
def getSdu (s : DefragState) : Pdu × Option (ℕ × ℕ) :=
  if s.stopped then ([], none)
  else (s.sdu, some (s.macAddress.encryptionMode, s.macAddress.usageMarker))

end MacDefrag

/-- Trailing part of `Mac::removeFillBits` (`mac.cc`): the
`while (ret.at(ret.size() - 1) == 0) ret.resize(ret.size() - 1);` loop.
`none` models the out-of-range access `at(size() - 1)` on an empty PDU
(spec-modelled: `Pdu::at` is a bounds-checked bit read). -/
def stripTrailingZerosCk (bs : Pdu) : Option Pdu :=
  match h : bs.getLast? with
  | none => none
  | some true => some bs
  | some false => stripTrailingZerosCk bs.dropLast
termination_by bs.length
decreasing_by
  have hne : bs ≠ [] := by intro he; rw [he] at h; simp at h
  have hl := List.length_pos.mpr hne
  simp [List.length_dropLast]
  omega

/-- `Mac::removeFillBits` (`mac.cc`), fill-bit stripping enabled, with
explicit bounds accounting: if the last bit is 1 remove it, else remove
all trailing 0s and then the terminating 1.  `none` models the
out-of-range access reached when the PDU is empty or runs out of bits
while stripping zeros. -/
def removeFillBitsCk (pdu : Pdu) : Option Pdu :=
  match pdu.getLast? with
  | none => none
  | some true => some pdu.dropLast
  | some false => Option.map List.dropLast (stripTrailingZerosCk pdu)

/-- `Mac::removeFillBits` (`mac.cc`) as used by the PDU processors: a
no-op when `m_bRemoveFillBits` is unset.  On the faulting input (a PDU
with no 1 bit) the C++ code performs an out-of-range access (claim about
`removeFillBits` safety); this total wrapper returns the empty PDU
there. -/
def removeFillBits (bRemoveFillBits : Bool) (pdu : Pdu) : Pdu :=
  if bRemoveFillBits then (removeFillBitsCk pdu).getD [] else pdu

/-- Downlink usage as decoded from the AACH, `common/tetra.h`. -/
inductive DownlinkUsage where
  | UNALLOCATED
  | ASSIGNED_CONTROL
  | COMMON_CONTROL
  | RESERVED
  | TRAFFIC
  deriving DecidableEq, Repr

/-- Logical channels of the lower MAC, `common/tetra.h`. -/
inductive MacLogicalChannel where
  | AACH
  | BLCH
  | BNCH
  | BSCH
  | SCH_F
  | SCH_HD
  | STCH
  | TCH_S
  | TCH
  | unknown
  deriving DecidableEq, Repr

/-- MAC state from the ACCESS-ASSIGN PDU, `common/tetra.h`. -/
structure MacState where
  downlinkUsage : DownlinkUsage
  downlinkUsageMarker : ℕ
  logicalChannel : MacLogicalChannel
  deriving DecidableEq, Repr

/-- Cell information, `common/tetracell.h` (not among the sources).
Modelled from the spec: `(mcc, mnc, colour_code, downlink_freq_hz)`;
the derived 32-bit scrambling code is omitted, no claim depends on it. -/
structure CellState where
  mcc : ℕ
  mnc : ℕ
  colorCode : ℕ
  downlinkFrequency : ℤ
  deriving DecidableEq, Repr

/-- Modelled from the spec: `TetraCell::updateScramblingCode` stores
`(mcc, mnc, colour code)` on a successful BSCH decode. -/
def updateScramblingCode (mcc mnc colorCode : ℕ) (c : CellState) : CellState :=
  { c with mcc := mcc, mnc := mnc, colorCode := colorCode }

/-- Modelled from the spec: `TetraCell::setFrequencies` stores the
computed downlink frequency. -/
def setFrequencies (dl : ℤ) (_ul : ℤ) (c : CellState) : CellState :=
  { c with downlinkFrequency := dl }

/-- The mutable state owned by the `Mac` layer (`mac.h`): TDMA time,
current MAC address, MAC state, per-usage-marker encryption table,
second-slot-stolen flag, fill-bit-stripping option, the defragmenter
and the cell information. -/
structure MacSt where
  tetraTime : TetraTime
  macAddress : MacAddress
  macState : MacState
  usageMarkerEncryptionMode : ℕ → ℕ
  secondSlotStolenFlag : ℕ
  bRemoveFillBits : Bool
  defrag : DefragState
  cell : CellState

/-- `Mac::pduProcessAach` (`mac.cc`): decode the ACCESS-ASSIGN header
(2 bits) and field 1 (6 bits); in frame 18 the downlink usage is forced
to `COMMON_CONTROL` regardless of the PDU contents. -/
def pduProcessAach (st : MacSt) (pdu : Pdu) : MacSt :=
  let header := Pdu.getValue pdu 0 2
  let field1 := Pdu.getValue pdu 2 6
  let ms0 := { st.macState with downlinkUsageMarker := 0 }
  let ms :=
    if st.tetraTime.fn = 18 then
      { ms0 with downlinkUsage := DownlinkUsage.COMMON_CONTROL }
    else if header = 0b00 then
      { ms0 with downlinkUsage := DownlinkUsage.COMMON_CONTROL }
    else if field1 = 0b000000 then
      { ms0 with downlinkUsage := DownlinkUsage.UNALLOCATED }
    else if field1 = 0b000001 then
      { ms0 with downlinkUsage := DownlinkUsage.ASSIGNED_CONTROL }
    else if field1 = 0b000010 then
      { ms0 with downlinkUsage := DownlinkUsage.COMMON_CONTROL }
    else if field1 = 0b000011 then
      { ms0 with downlinkUsage := DownlinkUsage.RESERVED }
    else
      { ms0 with downlinkUsage := DownlinkUsage.TRAFFIC,
                 downlinkUsageMarker := field1 }
  { st with macState := ms }

/-- `Mac::pduProcessSync` (`mac.cc`): dissect the BSCH SYNC PDU
(minimum 60 bits): colour code at 4, `tn = bits(10..12) + 1`,
`fn = bits(12..17)`, `mn = bits(17..23)` copied into the TDMA time,
MCC at 31, MNC at 41 into the cell, and a 29-bit TM-SDU from offset
31. -/
def pduProcessSync (st : MacSt) (pdu : Pdu) : MacSt × Pdu :=
  if 60 ≤ pdu.length then
    let colorCode := Pdu.getValue pdu 4 6
    let tn := Pdu.getValue pdu 10 2 + 1
    let fn := Pdu.getValue pdu 12 5
    let mn := Pdu.getValue pdu 17 6
    let mcc := Pdu.getValue pdu 31 10
    let mnc := Pdu.getValue pdu 41 14
    ({ st with tetraTime := ⟨tn, fn, mn⟩
               cell := updateScramblingCode mcc mnc colorCode st.cell },
     Pdu.extract pdu 31 29)
  else (st, [])

/-- `Mac::pduProcessSysinfo` (`mac.cc`): dissect SYSINFO (minimum 82
bits), compute the cell downlink frequency and emit the 42-bit TM-SDU
at offset 82; `pdu_size_in_mac = 82 + 42`. -/
def pduProcessSysinfo (st : MacSt) (pdu : Pdu) : MacSt × Pdu × ℤ :=
  if 82 ≤ pdu.length then
    let mainCarrier := Pdu.getValue pdu 4 12
    let bandFrequency := Pdu.getValue pdu 16 4
    let offset := Pdu.getValue pdu 20 2
    -- duplex spacing, reverse operation, secondary control channels,
    -- MS_TXPWR_MAX_CELL, RXLEV_ACCESS_MIN, ACCESS_PARAMETER,
    -- RADIO_DOWNLINK_TIMEOUT
    let pos : ℕ := 22 + 3 + 1 + 2 + 3 + 4 + 4 + 4
    -- hyperframe / cipher-key flag: both branches skip 16 bits, then the
    -- optional-field flag and the 20-bit option value (always present)
    let pos := pos + 1 + 16 + 2 + 20
    let duplex : List ℤ := [0, 6250, -6250, 12500]
    let freq : ℤ := (bandFrequency : ℤ) * 100000000 +
      (mainCarrier : ℤ) * 25000 + duplex.getD offset 0
    let st' := { st with cell := setFrequencies freq 0 st.cell }
    (st', Pdu.extract pdu pos 42, ((pos + 42 : ℕ) : ℤ))
  else (st, [], 0)

/-- `Mac::pduProcessAccessDefine` (`mac.cc`): skip the fixed fields
(position 27 after them), read the 2-bit optional-field flag while
advancing the cursor by 1 as the source does, skip the optional element
and 3 filler bits; no SDU, only `pdu_size_in_mac` is produced. -/
def pduProcessAccessDefine (st : MacSt) (pdu : Pdu) : MacSt × ℤ :=
  let flag := Pdu.getValue pdu 27 2
  let pos : ℕ := 28
  let pos := if flag = 0b01 then pos + 16 else if flag = 0b10 then pos + 24 else pos
  (st, ((pos + 3 : ℕ) : ℤ))

/-- `Mac::pduProcessDBlock` (`mac.cc`): dissect MAC-D-BLCK (implicit
length 268 bits): fill-bit flag, encryption mode and event label into
the MAC address, optional slot-granting element, remainder is the
TM-SDU. -/
def pduProcessDBlock (st : MacSt) (pdu : Pdu) : MacSt × Pdu × ℤ :=
  if 268 ≤ pdu.length then
    let fillBitFlag := Pdu.getValue pdu 3 1
    let pdu := if fillBitFlag ≠ 0 then removeFillBits st.bRemoveFillBits pdu else pdu
    let encryptionMode := Pdu.getValue pdu 4 2
    let eventLabel := Pdu.getValue pdu 6 10
    let flag := Pdu.getValue pdu 17 1
    let pos : ℕ := if flag ≠ 0 then 18 + 8 else 18
    ({ st with macAddress := { st.macAddress with
        encryptionMode := encryptionMode, eventLabel := eventLabel } },
     Pdu.subFrom pdu pos, (268 : ℤ))
  else (st, [], 0)

/-- `Mac::pduProcessResource` (`mac.cc`): dissect MAC-RESOURCE per
table 21.55.  A NULL PDU (address type `000`, read at fixed offset 13)
discards everything and reports `pdu_size_in_mac = -1`.  Otherwise the
header fields update the MAC address (and the usage-marker encryption
table for address type `110`), the optional elements advance the
cursor, and either a TM-SDU is extracted or (length `111111`) a
fragment reassembly is started.  Returns
(state, sdu, fragmented-packet flag, pdu_size_in_mac). -/
def pduProcessResource (st : MacSt) (macPdu : Pdu)
    (_macLogicalChannel : MacLogicalChannel) : MacSt × Pdu × Bool × ℤ :=
  let pdu := macPdu
  if Pdu.getValue pdu 13 3 = 0b000 then
    (st, [], false, (-1 : ℤ))
  else
    let fillBitFlag := Pdu.getValue pdu 2 1
    let pdu := if fillBitFlag ≠ 0 then removeFillBits st.bRemoveFillBits pdu else pdu
    let encryptionMode := Pdu.getValue pdu 4 2
    let length := Pdu.getValue pdu 7 6
    let fragmentedPacketFlag : Bool := length = 0b111111
    let secondSlotStolenFlag :=
      if length = 0b111110 then 1
      else if length = 0b111111 then 0
      else st.secondSlotStolenFlag
    let addressType := Pdu.getValue pdu 13 3
    let a0 := { st.macAddress with encryptionMode := encryptionMode,
                                   addressType := addressType }
    let addrPosUme : MacAddress × ℕ × (ℕ → ℕ) :=
      if addressType = 0b001 then
        ({ a0 with ssi := Pdu.getValue pdu 16 24 }, 40,
         st.usageMarkerEncryptionMode)
      else if addressType = 0b011 then
        ({ a0 with ussi := Pdu.getValue pdu 16 24 }, 40,
         st.usageMarkerEncryptionMode)
      else if addressType = 0b100 then
        ({ a0 with smi := Pdu.getValue pdu 16 24 }, 40,
         st.usageMarkerEncryptionMode)
      else if addressType = 0b010 then
        ({ a0 with eventLabel := Pdu.getValue pdu 16 10 }, 26,
         st.usageMarkerEncryptionMode)
      else if addressType = 0b101 then
        ({ a0 with ssi := Pdu.getValue pdu 16 24,
                   eventLabel := Pdu.getValue pdu 40 10 }, 50,
         st.usageMarkerEncryptionMode)
      else if addressType = 0b110 then
        let um := Pdu.getValue pdu 40 6
        ({ a0 with ssi := Pdu.getValue pdu 16 24, usageMarker := um }, 46,
         Function.update st.usageMarkerEncryptionMode um encryptionMode)
      else if addressType = 0b111 then
        ({ a0 with smi := Pdu.getValue pdu 16 24,
                   eventLabel := Pdu.getValue pdu 40 10 }, 50,
         st.usageMarkerEncryptionMode)
      else (a0, 16, st.usageMarkerEncryptionMode)
    let addr := addrPosUme.1
    let ume := addrPosUme.2.2
    let pos := addrPosUme.2.1
    let pos := if Pdu.getValue pdu pos 1 ≠ 0 then pos + 1 + 4 else pos + 1
    let pos := if Pdu.getValue pdu pos 1 ≠ 0 then pos + 1 + 8 else pos + 1
    let chanAllocFlag := Pdu.getValue pdu pos 1
    let pos := pos + 1
    let pos :=
      if chanAllocFlag ≠ 0 then
        -- 21.5.2 channel allocation element, table 21.82
        let ulDl := Pdu.getValue pdu (pos + 2 + 4) 2
        let pos := pos + 2 + 4 + 2 + 1 + 1 + 12
        let pos := if Pdu.getValue pdu pos 1 ≠ 0 then pos + 1 + 4 + 2 + 3 + 1 else pos + 1
        let monPattern := Pdu.getValue pdu pos 2
        let pos := pos + 2
        let pos := if monPattern = 0b00 ∧ st.tetraTime.fn = 18 then pos + 2 else pos
        if ulDl = 0 then
          -- augmented channel allocation
          let pos := pos + 2 + 3 + 3 + 3 + 3 + 3 + 4 + 5
          let nappingSts := Pdu.getValue pdu pos 2
          let pos := pos + 2
          let pos := if nappingSts = 1 then pos + 11 else pos
          let pos := pos + 4
          let pos := if Pdu.getValue pdu pos 1 ≠ 0 then pos + 1 + 16 else pos + 1
          let pos := if Pdu.getValue pdu pos 1 ≠ 0 then pos + 1 + 16 else pos + 1
          pos + 1
        else pos
      else pos
    let pduSizeInMac : ℤ :=
      if ¬ fragmentedPacketFlag then (decodeLength length : ℤ) * 8 else 0
    let sduLength : ℤ := (decodeLength length : ℤ) * 8 - (pos : ℤ)
    let st' := { st with macAddress := addr,
                         usageMarkerEncryptionMode := ume,
                         secondSlotStolenFlag := secondSlotStolenFlag }
    if 0 < sduLength then
      if fragmentedPacketFlag then
        let d := MacDefrag.start addr st.tetraTime st.defrag
        let d := MacDefrag.append (Pdu.subFrom pdu pos) addr d
        ({ st' with defrag := d }, [], fragmentedPacketFlag, pduSizeInMac)
      else
        (st', (pdu.drop pos).take sduLength.toNat, fragmentedPacketFlag,
         pduSizeInMac)
    else (st', [], fragmentedPacketFlag, pduSizeInMac)

/-- `Mac::pduProcessMacFrag` (`mac.cc`): fill-bit flag at offset 3,
then append the remainder (from offset 4) to the active reassembly
under the current MAC address; no TM-SDU. -/
def pduProcessMacFrag (st : MacSt) (macPdu : Pdu) : MacSt :=
  let pdu := macPdu
  let fillBitFlag := Pdu.getValue pdu 3 1
  let pdu := if fillBitFlag ≠ 0 then removeFillBits st.bRemoveFillBits pdu else pdu
  { st with defrag := MacDefrag.append (Pdu.subFrom pdu 4) st.macAddress st.defrag }

/-- `Mac::pduProcessMacEnd` (`mac.cc`): fill-bit flag, position of
grant, 6-bit length (dropped unless in `[0b000010, 0b100010]`),
optional slot-granting and channel-allocation elements; append the
remainder to the reassembly, fetch the reassembled SDU (whose
encryption mode and usage marker come from the defragmenter's stored
address), update the usage-marker table and the current MAC address
with that encryption mode, and stop the defragmenter. -/
def pduProcessMacEnd (st : MacSt) (macPdu : Pdu) : MacSt × Pdu :=
  let pdu := macPdu
  let fillBitFlag := Pdu.getValue pdu 3 1
  let pdu := if fillBitFlag ≠ 0 then removeFillBits st.bRemoveFillBits pdu else pdu
  let val := Pdu.getValue pdu 5 6
  if val < 0b000010 ∨ 0b100010 < val then (st, [])
  else
    let pos : ℕ := 11
    let pos := if Pdu.getValue pdu pos 1 ≠ 0 then pos + 1 + 8 else pos + 1
    let chanAllocFlag := Pdu.getValue pdu pos 1
    let pos := pos + 1
    let pos :=
      if chanAllocFlag ≠ 0 then
        -- 21.5.2 channel allocation element, table 341
        let pos := pos + 2 + 4 + 2 + 1 + 1 + 12
        let pos := if Pdu.getValue pdu pos 1 ≠ 0 then pos + 1 + 4 + 2 + 3 + 1 else pos + 1
        let monPattern := Pdu.getValue pdu pos 2
        let pos := pos + 2
        if monPattern = 0b00 ∧ st.tetraTime.fn = 18 then pos + 2 else pos
      else pos
    let d := MacDefrag.append (Pdu.subFrom pdu pos) st.macAddress st.defrag
    let sduOut := MacDefrag.getSdu d
    let sdu := sduOut.1
    let st' :=
      match sduOut.2 with
      | some (encryptionMode, usageMarker) =>
        if 0 < sdu.length then
          let ume := Function.update st.usageMarkerEncryptionMode usageMarker
          { st with usageMarkerEncryptionMode := ume encryptionMode,
                    macAddress := { st.macAddress with
                      encryptionMode := encryptionMode } }
        else st
      | none => st
    ({ st' with defrag := MacDefrag.stop d }, sdu)

/-- Result of `Mac::serviceUpperMac`: final MAC state, the TM-SDUs
handed to the LLC with their logical channel, and the number of
iterations of the dissociation loop. -/
structure UpperMacResult where
  st : MacSt
  emitted : List (Pdu × MacLogicalChannel)
  iterations : ℕ

/-- One iteration body of the `Mac::serviceUpperMac` dissection switch
(`mac.cc`): dispatch on the logical channel and, for the signalling
channels, on the 2-bit PDU type.  Returns (state, tmSdu, send-to-LLC
flag, dissociate flag, pdu_size_in_mac).  `tmSdu` and `pduSizeInMac`
persist across loop iterations in the source, so they are threaded
through. -/
def upperMacBody (st : MacSt) (pdu : Pdu) (ch : MacLogicalChannel)
    (tmSdu : Pdu) (pduSizeInMac : ℤ) : MacSt × Pdu × Bool × Bool × ℤ :=
  match ch with
  | MacLogicalChannel.AACH =>
    (pduProcessAach st pdu, tmSdu, true, false, pduSizeInMac)
  | MacLogicalChannel.BSCH =>
    let r := pduProcessSync st pdu
    (r.1, r.2, true, false, pduSizeInMac)
  | MacLogicalChannel.TCH_S =>
    -- PDU forwarded to the U-Plane; no MAC state change
    (st, tmSdu, true, false, pduSizeInMac)
  | MacLogicalChannel.TCH =>
    (st, tmSdu, true, false, pduSizeInMac)
  | MacLogicalChannel.STCH
  | MacLogicalChannel.BNCH
  | MacLogicalChannel.SCH_F
  | MacLogicalChannel.SCH_HD =>
    let pduType := Pdu.getValue pdu 0 2
    if pduType = 0b00 then
      let r := pduProcessResource st pdu ch
      if r.2.2.1 then (r.1, r.2.1, false, false, r.2.2.2)
      else if 0 < r.2.2.2 then (r.1, r.2.1, true, true, r.2.2.2)
      else (r.1, r.2.1, true, false, r.2.2.2)
    else if pduType = 0b01 then
      if Pdu.getValue pdu 2 1 = 0 then
        (pduProcessMacFrag st pdu, tmSdu, false, false, pduSizeInMac)
      else
        let r := pduProcessMacEnd st pdu
        (r.1, r.2, true, false, pduSizeInMac)
    else if pduType = 0b10 then
      let broadcastType := Pdu.getValue pdu 2 2
      if broadcastType = 0b00 then
        let r := pduProcessSysinfo st pdu
        (r.1, r.2.1, true, false, r.2.2)
      else if broadcastType = 0b01 then
        let r := pduProcessAccessDefine st pdu
        (r.1, tmSdu, true, false, r.2)
      else (st, tmSdu, true, false, pduSizeInMac)
    else
      if ch ≠ MacLogicalChannel.STCH ∧ ch ≠ MacLogicalChannel.SCH_HD then
        let r := pduProcessDBlock st pdu
        (r.1, r.2.1, true, false, r.2.2)
      else (st, tmSdu, true, false, pduSizeInMac)
  | _ => (st, tmSdu, true, false, pduSizeInMac)

/-- The dissociation do-while loop of `Mac::serviceUpperMac`
(`mac.cc`): after each body, `pduCount` is incremented; the loop exits
when fewer than 40 bits remain past `pdu_size_in_mac`, and continues
only when a TM-SDU was deliverable, the dissociate flag is set and
`pduCount < 32`. -/
def serviceUpperMacGo (st : MacSt) (pdu : Pdu) (ch : MacLogicalChannel)
    (tmSdu : Pdu) (pduSizeInMac : ℤ) (pduCount : ℕ)
    (acc : List (Pdu × MacLogicalChannel)) : UpperMacResult :=
  let r := upperMacBody st pdu ch tmSdu pduSizeInMac
  let st' := r.1
  let tmSdu' := r.2.1
  let bSend := r.2.2.1
  let dissoc := r.2.2.2.1
  let psz := r.2.2.2.2
  let acc' := if tmSdu' ≠ [] ∧ bSend = true then acc ++ [(tmSdu', ch)] else acc
  if (pdu.length : ℤ) - psz < 40 then ⟨st', acc', pduCount + 1⟩
  else
    let pdu' := if dissoc then Pdu.subFrom pdu psz.toNat else pdu
    if h : bSend = true ∧ dissoc = true ∧ pduCount + 1 < 32 then
      serviceUpperMacGo st' pdu' ch tmSdu' psz (pduCount + 1) acc'
    else ⟨st', acc', pduCount + 1⟩
termination_by 32 - pduCount
decreasing_by omega

/-- `Mac::serviceUpperMac` (`mac.cc`): record the logical channel in
the MAC state and run the dissection loop with an empty `tmSdu`,
`pdu_size_in_mac = 0` and `pduCount = 0`. -/
def serviceUpperMac (st : MacSt) (pdu : Pdu) (ch : MacLogicalChannel) :
    UpperMacResult :=
  let st0 := { st with macState := { st.macState with logicalChannel := ch } }
  serviceUpperMacGo st0 pdu ch [] 0 0 []

/-! ## Burst synchronizer (`decoder.cc` / `decoder.h`) -/

/-- Burst length in bits, `decoder.h`. -/
def FRAME_LEN : ℕ := 510

/-- 9.4.4.3.2 normal training sequence 3, begin part (q11..q22),
`decoder.h`. -/
def NORMAL_TRAINING_SEQ_3_BEGIN : List Bool :=
  [false, false, false, true, true, false, true, false, true, true, false,
   true]

/-- 9.4.4.3.2 normal training sequence 3, end part (q1..q10),
`decoder.h`. -/
def NORMAL_TRAINING_SEQ_3_END : List Bool :=
  [true, false, true, true, false, true, true, true, false, false]

/-- Inner loop of `TetraDecoder::patternAtPositionScore` (`decoder.cc`):
sum of the bitwise differences between the pattern and the data starting
at index `i`. -/
def patternScoreAux (data : List Bool) : List Bool → ℕ → ℕ
  | [], _ => 0
  | p :: ps, i =>
    (if data.getD i false ≠ p then 1 else 0) + patternScoreAux data ps (i + 1)

/-- `TetraDecoder::patternAtPositionScore` (`decoder.cc`): Hamming
distance between `pattern` and `data` at `position`. -/
def patternAtPositionScore (data pattern : List Bool) (position : ℕ) : ℕ :=
  patternScoreAux data pattern position

/-- State of the burst synchronizer (`decoder.h`):
`m_bIsSynchronized`, `m_syncBitCounter` (a `uint64_t`, kept below
`2 ^ 64`), the burst buffer `m_frame`, plus a ghost counter of
`processFrame` invocations (the spec's `process_burst`); the MAC-side
effects of `processFrame` live in the `Mac` embedding. -/
structure DecoderState where
  bIsSynchronized : Bool
  syncBitCounter : ℕ
  frame : List Bool
  processedCount : ℕ
  deriving DecidableEq, Repr

/-- Wrap modulus of the `uint64_t` synchronization counter. -/
def U64 : ℕ := 2 ^ 64

/-- `TetraDecoder::rxSymbol` (`decoder.cc`): append the symbol; below
510 bits return immediately; otherwise score the N3 training sequence
at offsets 0 and 500, on a zero-distance begin and distance-below-2 end
reset the synchronizer (`resetSynchronizer`: synchronized, counter
`510 * 50`); process the burst if matched or synchronized at a counter
multiple of 510; decrement the counter with `uint64_t` wrap and clear
synchronization when it reaches 0; slide the window by one bit unless
the burst was consumed.  Returns the new state and `frameFound`. -/
def rxSymbol (s : DecoderState) (sym : Bool) : DecoderState × Bool :=
  let frame := s.frame ++ [sym]
  if frame.length < FRAME_LEN then ({ s with frame := frame }, false)
  else
    let scoreBegin := patternAtPositionScore frame NORMAL_TRAINING_SEQ_3_BEGIN 0
    let scoreEnd := patternAtPositionScore frame NORMAL_TRAINING_SEQ_3_END 500
    let frameFound : Bool := decide (scoreBegin = 0 ∧ scoreEnd < 2)
    let sync := if frameFound then true else s.bIsSynchronized
    let counter := if frameFound then FRAME_LEN * 50 else s.syncBitCounter
    let doProcess := frameFound || (sync && decide (counter % 510 = 0))
    let count := if doProcess then s.processedCount + 1 else s.processedCount
    let frame2 := if doProcess then [] else frame
    let counter2 := if counter = 0 then U64 - 1 else counter - 1
    let sync2 := if counter2 = 0 then false else sync
    let counter3 := if counter2 = 0 then 0 else counter2
    let frame3 := if doProcess then frame2 else frame2.drop 1
    (⟨sync2, counter3, frame3, count⟩, frameFound)

/-- One `rxSymbol` call fed with a 0 bit (the input used to model "no
further valid training sequence" in the sync grace window scenario). -/
def stepZ (s : DecoderState) : DecoderState := (rxSymbol s false).1

/-- `n` successive `rxSymbol` calls fed with 0 bits. -/
def runZ : ℕ → DecoderState → DecoderState
  | 0, s => s
  | n + 1, s => runZ n (stepZ s)

/-- Abstraction of the synchronizer state under all-zero input: only
the frame length is kept, since the frame is always all-zero.  Mirrors
`rxSymbol` step by step. -/
structure SyncAbs where
  sync : Bool
  counter : ℕ
  len : ℕ
  count : ℕ
  deriving DecidableEq, Repr

/-- `rxSymbol` on a 0 bit, on the abstraction: on an all-zero window
the two training-sequence scores are 7 and 6, so no burst ever
matches. -/
def astep (a : SyncAbs) : SyncAbs :=
  let len1 := a.len + 1
  if len1 < FRAME_LEN then { a with len := len1 }
  else
    let doProcess := a.sync && decide (a.counter % 510 = 0)
    let count := if doProcess then a.count + 1 else a.count
    let len2 := if doProcess then 0 else len1
    let counter2 := if a.counter = 0 then U64 - 1 else a.counter - 1
    let sync2 := if counter2 = 0 then false else a.sync
    let counter3 := if counter2 = 0 then 0 else counter2
    let len3 := if doProcess then len2 else len2 - 1
    ⟨sync2, counter3, len3, count⟩

/-- Iterated abstract step. -/
def arun : ℕ → SyncAbs → SyncAbs
  | 0, a => a
  | n + 1, a => arun n (astep a)

/-- The concrete synchronizer state is abstracted by `a`: same flags and
counters, and the frame is the all-zero window of length `a.len`. -/
def SyncRel (s : DecoderState) (a : SyncAbs) : Prop :=
  s.bIsSynchronized = a.sync ∧ s.syncBitCounter = a.counter ∧
  s.frame = List.replicate a.len false ∧ s.processedCount = a.count

/-- A 510-bit burst whose N3 training sequence matches exactly at
offsets 0 and 500. -/
def matchedBurst : List Bool :=
  NORMAL_TRAINING_SEQ_3_BEGIN ++ List.replicate 488 false ++
    NORMAL_TRAINING_SEQ_3_END

/-- Synchronizer state one input bit before a matched burst: not
synchronized, counter 0, window holding the first 509 bits of
`matchedBurst` (its last bit is 0). -/
def preMatchState : DecoderState := ⟨false, 0, matchedBurst.dropLast, 0⟩

/-- Synchronizer state right after the matching `rxSymbol` call. -/
def matchedState : DecoderState := (rxSymbol preMatchState false).1

/-! ## Concrete sample states and PDUs for the scenarios -/

/-- A concrete all-zero MAC address. -/
def sampleAddress : MacAddress := ⟨0, 0, 0, 0, 0, 0, 0⟩

/-- A concrete MAC state: stopped defragmenter, zeroed address and
encryption table, TDMA time (1,1,1), fill-bit stripping enabled. -/
def sampleMacSt : MacSt :=
  { tetraTime := ⟨1, 1, 1⟩
    macAddress := sampleAddress
    macState := ⟨DownlinkUsage.UNALLOCATED, 0, MacLogicalChannel.unknown⟩
    usageMarkerEncryptionMode := fun _ => 0
    secondSlotStolenFlag := 0
    bRemoveFillBits := true
    defrag := ⟨sampleAddress, ⟨1, 1, 1⟩, 0, [], true⟩
    cell := ⟨0, 0, 0, 0⟩ }

/-- `sampleMacSt` at frame 18. -/
def sampleMacSt18 : MacSt := { sampleMacSt with tetraTime := ⟨1, 18, 1⟩ }

/-- First fragment payload of the defragmentation scenario. -/
def c3Frag1 : Pdu := [true, true, false, true, false, false, true, true]

/-- Final fragment payload of the defragmentation scenario. -/
def c3Frag2 : Pdu := [false, true, true, false, true]

/-- A fragmenting MAC-RESOURCE PDU: encryption mode 1, length
indication `111111` (start of fragmentation), address type SSI with
`ssi = 1`, no optional elements, followed by `c3Frag1` at offset 43. -/
def c3FragStartPdu : Pdu :=
  [false, false,                                     -- MAC pdu type 00
   false,                                            -- fill bit flag
   false,                                            -- position of grant
   false, true,                                      -- encryption mode 01
   false,                                            -- random access flag
   true, true, true, true, true, true,               -- length 111111
   false, false, true] ++                            -- address type 001
  (List.replicate 23 false ++ [true]) ++             -- ssi = 1
  [false, false, false] ++                           -- power/slot/alloc flags
  c3Frag1

/-- A non-fragmenting MAC-RESOURCE PDU changing the encryption mode in
effect to 2 while the reassembly of `c3FragStartPdu` is active: length
indication 10 octets, same SSI 1. -/
def c3EncChangePdu : Pdu :=
  [false, false,                                     -- MAC pdu type 00
   false,                                            -- fill bit flag
   false,                                            -- position of grant
   true, false,                                      -- encryption mode 10
   false,                                            -- random access flag
   false, false, true, false, true, false,           -- length 001010
   false, false, true] ++                            -- address type 001
  (List.replicate 23 false ++ [true]) ++             -- ssi = 1
  [false, false, false] ++                           -- power/slot/alloc flags
  List.replicate 37 false                            -- payload

/-- A MAC-END PDU with length indication 2, no optional elements,
followed by `c3Frag2` at offset 13. -/
def c3MacEndPdu : Pdu :=
  [false, true,                                      -- MAC pdu type 01
   true,                                             -- subtype: MAC-END
   false,                                            -- fill bit flag
   false,                                            -- position of grant
   false, false, false, false, true, false,          -- length 000010
   false,                                            -- slot granting flag
   false] ++                                         -- channel alloc flag
  c3Frag2

/-- MAC state after the fragmenting MAC-RESOURCE of the scenario. -/
def c3St1 : MacSt :=
  (pduProcessResource sampleMacSt c3FragStartPdu MacLogicalChannel.SCH_F).1

/-- MAC state after the encryption-mode change, while the reassembly is
still active. -/
def c3St2 : MacSt :=
  (pduProcessResource c3St1 c3EncChangePdu MacLogicalChannel.SCH_F).1

/-- Iterated `incrementTn`. -/
def iterIncrementTn : ℕ → TetraTime → TetraTime
  | 0, t => t
  | n + 1, t => iterIncrementTn n (incrementTn t)

/-- Rank of a valid TDMA time in the hyperframe cycle of
`4 * 18 * 60 = 4320` slots. -/
def timeIdx (t : TetraTime) : ℕ :=
  (t.mn - 1) * 72 + (t.fn - 1) * 4 + (t.tn - 1)

/-- A 60-bit SYNC PDU whose frame-number field (bits 12..17) is 1 and
multiframe field (bits 17..23) is 1, both in their declared ranges. -/
def c2SyncPdu : Pdu :=
  List.replicate 16 false ++ [true] ++ List.replicate 5 false ++ [true] ++
    List.replicate 37 false

/-! ## Helper lemmas -/

theorem getValue_lt (p : Pdu) (pos : ℕ) : ∀ n, Pdu.getValue p pos n < 2 ^ n := by
  intro n
  induction n with
  | zero => simp [Pdu.getValue]
  | succ n ih =>
    simp only [Pdu.getValue, pow_succ]
    split <;> omega

theorem incrementTn_idx (t : TetraTime) (h : validTime t) :
    validTime (incrementTn t) ∧
    timeIdx (incrementTn t) = (timeIdx t + 1) % 4320 := by
  obtain ⟨h1, h2, h3, h4, h5, h6⟩ := h
  simp only [incrementTn, timeIdx, validTime]
  split_ifs <;> simp_all <;> omega

theorem timeIdx_lt (t : TetraTime) (h : validTime t) : timeIdx t < 4320 := by
  obtain ⟨h1, h2, h3, h4, h5, h6⟩ := h
  simp only [timeIdx]
  omega

theorem timeIdx_inj {t t' : TetraTime} (h : validTime t) (h' : validTime t')
    (he : timeIdx t = timeIdx t') : t = t' := by
  obtain ⟨tn, fn, mn⟩ := t
  obtain ⟨tn', fn', mn'⟩ := t'
  obtain ⟨h1, h2, h3, h4, h5, h6⟩ := h
  obtain ⟨g1, g2, g3, g4, g5, g6⟩ := h'
  simp only [timeIdx, validTime] at *
  simp only [TetraTime.mk.injEq]
  omega

theorem iterIncrementTn_idx : ∀ (k : ℕ) (t : TetraTime), validTime t →
    validTime (iterIncrementTn k t) ∧
    timeIdx (iterIncrementTn k t) = (timeIdx t + k) % 4320 := by
  intro k
  induction k with
  | zero =>
    intro t ht
    exact ⟨ht, by simp [iterIncrementTn, Nat.mod_eq_of_lt (timeIdx_lt t ht)]⟩
  | succ n ih =>
    intro t ht
    have hstep := incrementTn_idx t ht
    have hrec := ih (incrementTn t) hstep.1
    refine ⟨hrec.1, ?_⟩
    show timeIdx (iterIncrementTn n (incrementTn t)) = _
    rw [hrec.2, hstep.2, Nat.mod_add_mod]
    congr 1
    omega

/-! ## Claim C8: TDMA time monotonicity -/

/-- C8: starting from `(tn = 1, fn = 1, mn = 1)`, applying
`incrementTn` `4 * 18 * 60 = 4320` times returns the state to
`(1, 1, 1)`, and every intermediate state satisfies `tn ∈ [1,4]`,
`fn ∈ [1,18]`, `mn ∈ [1,60]`. -/
theorem claim_C8 :
    iterIncrementTn 4320 ⟨1, 1, 1⟩ = ⟨1, 1, 1⟩ ∧
    ∀ k, validTime (iterIncrementTn k ⟨1, 1, 1⟩) := by
  have h0 : validTime ⟨1, 1, 1⟩ := by decide
  constructor
  · have h := iterIncrementTn_idx 4320 ⟨1, 1, 1⟩ h0
    refine timeIdx_inj h.1 h0 ?_
    rw [h.2]
    decide
  · intro k
    exact (iterIncrementTn_idx k _ h0).1

/-! ## Claim C4: MAC-RESOURCE length decoding -/

/-- C4: `decodeLength` maps its 6-bit argument as specified:
`000000`, `111011`, `111100` to 0; any `v ≤ 010010` to `v`; any
`v ∈ [010011, 111010]` to `18 + (v - 18)`; `111110` to `111110`;
`111111` to `111111`. -/
theorem claim_C4 : ∀ v : ℕ, v < 64 →
    ((v = 0b000000 ∨ v = 0b111011 ∨ v = 0b111100) → decodeLength v = 0) ∧
    (v ≤ 0b010010 → decodeLength v = v) ∧
    (0b010011 ≤ v → v ≤ 0b111010 → decodeLength v = 18 + (v - 18)) ∧
    (v = 0b111110 → decodeLength v = 0b111110) ∧
    (v = 0b111111 → decodeLength v = 0b111111) := by
  decide

/-- Witness for C4 at concrete length indications. -/
theorem claim_C4_witness :
    decodeLength 0b111010 = 18 + (0b111010 - 18) ∧ decodeLength 0b010010 = 18 ∧
    decodeLength 0b111011 = 0 :=
  ⟨(claim_C4 0b111010 (by decide)).2.2.1 (by decide) (by decide),
   (claim_C4 0b010010 (by decide)).2.1 (by decide),
   (claim_C4 0b111011 (by decide)).1 (Or.inr (Or.inl rfl))⟩

/-! ## Claim C5: defragmenter contract -/

/-- C5: after `start(A)`, appending `f1` then `f2` under the same
address `A` and fetching the SDU yields `f1 ++ f2`; appending under an
address `B` with `B.ssi ≠ A.ssi` stops the defragmenter and a
subsequent `getSdu` yields an empty PDU. -/
theorem claim_C5 :
    ∀ (A B : MacAddress) (t : TetraTime) (d : DefragState) (f1 f2 x : Pdu),
    B.ssi ≠ A.ssi →
    (MacDefrag.getSdu
      (MacDefrag.append f2 A (MacDefrag.append f1 A
        (MacDefrag.start A t d)))).1 = f1 ++ f2 ∧
    (MacDefrag.append x B (MacDefrag.start A t d)).stopped = true ∧
    (MacDefrag.getSdu (MacDefrag.append x B (MacDefrag.start A t d))).1 = [] := by
  intro A B t d f1 f2 x hne
  simp [MacDefrag.start, MacDefrag.append, MacDefrag.getSdu, MacDefrag.stop,
    hne]

/-- Witness for C5 at concrete addresses and fragments. -/
theorem claim_C5_witness :
    (MacDefrag.getSdu
      (MacDefrag.append [false, true] sampleAddress
        (MacDefrag.append [true] sampleAddress
          (MacDefrag.start sampleAddress ⟨1, 1, 1⟩
            ⟨sampleAddress, ⟨1, 1, 1⟩, 0, [], true⟩)))).1 = [true, false, true] ∧
    (MacDefrag.append [true] { sampleAddress with ssi := 7 }
      (MacDefrag.start sampleAddress ⟨1, 1, 1⟩
        ⟨sampleAddress, ⟨1, 1, 1⟩, 0, [], true⟩)).stopped = true := by
  have h := claim_C5 sampleAddress { sampleAddress with ssi := 7 } ⟨1, 1, 1⟩
    ⟨sampleAddress, ⟨1, 1, 1⟩, 0, [], true⟩ [true] [false, true] [true]
    (by decide)
  exact ⟨h.1, h.2.1⟩

/-! ## Claim C9: AACH invariant in frame 18 -/

/-- C9: whenever the TDMA time has `fn = 18`, `pduProcessAach` leaves
`downlink_usage = COMMON_CONTROL` regardless of the PDU's header and
field-1 contents. -/
theorem claim_C9 : ∀ (st : MacSt) (pdu : Pdu), st.tetraTime.fn = 18 →
    (pduProcessAach st pdu).macState.downlinkUsage =
      DownlinkUsage.COMMON_CONTROL := by
  intro st pdu h
  simp [pduProcessAach, h]

/-- Witness for C9 at a concrete state in frame 18 and an arbitrary
all-one PDU. -/
theorem claim_C9_witness :
    (pduProcessAach sampleMacSt18 (List.replicate 8 true)).macState.downlinkUsage =
      DownlinkUsage.COMMON_CONTROL :=
  claim_C9 sampleMacSt18 (List.replicate 8 true) (by decide)

/-! ## Claim C2: TetraTime mutation ranges -/

/-- C2 counterexample: an all-zero 60-bit SYNC PDU drives the TDMA time
out of the declared ranges (`fn = 0`, `mn = 0`), so `pduProcessSync`
does not keep the state within `tn ∈ [1,4]`, `fn ∈ [1,18]`,
`mn ∈ [1,60]` for every PDU of at least 60 bits. -/
theorem claim_C2_counterexample :
    60 ≤ (List.replicate 60 false : Pdu).length ∧
    ¬ validTime
        ((pduProcessSync sampleMacSt (List.replicate 60 false)).1.tetraTime) := by
  constructor
  · decide
  · decide

/-- C2 as amended: `incrementTn` always preserves the declared ranges;
`pduProcessSync` on a PDU of at least 60 bits always leaves
`tn ∈ [1,4]` but copies `fn` and `mn` raw from the PDU's 5- and 6-bit
fields, so the state is within range only when those fields are; a PDU
shorter than 60 bits leaves the state untouched. -/
theorem pduProcessSync_time (st : MacSt) (pdu : Pdu) (h : 60 ≤ pdu.length) :
    ((pduProcessSync st pdu).1).tetraTime =
      ⟨Pdu.getValue pdu 10 2 + 1, Pdu.getValue pdu 12 5,
        Pdu.getValue pdu 17 6⟩ := by
  simp [pduProcessSync, if_pos h]

theorem claim_C2 :
    (∀ t : TetraTime, validTime t → validTime (incrementTn t)) ∧
    (∀ (st : MacSt) (pdu : Pdu), 60 ≤ pdu.length →
      (1 ≤ ((pduProcessSync st pdu).1.tetraTime).tn ∧
        ((pduProcessSync st pdu).1.tetraTime).tn ≤ 4) ∧
      ((pduProcessSync st pdu).1.tetraTime).fn = Pdu.getValue pdu 12 5 ∧
      ((pduProcessSync st pdu).1.tetraTime).mn = Pdu.getValue pdu 17 6 ∧
      (1 ≤ Pdu.getValue pdu 12 5 → Pdu.getValue pdu 12 5 ≤ 18 →
        1 ≤ Pdu.getValue pdu 17 6 → Pdu.getValue pdu 17 6 ≤ 60 →
        validTime ((pduProcessSync st pdu).1.tetraTime))) ∧
    (∀ (st : MacSt) (pdu : Pdu), pdu.length < 60 →
      (pduProcessSync st pdu).1 = st) := by
  refine ⟨fun t ht => (incrementTn_idx t ht).1, ?_, ?_⟩
  · intro st pdu h
    have htn := getValue_lt pdu 10 2
    rw [pduProcessSync_time st pdu h]
    dsimp only
    refine ⟨⟨by omega, by omega⟩, rfl, rfl, ?_⟩
    intro hf1 hf2 hm1 hm2
    exact ⟨by dsimp only; omega, by dsimp only; omega, hf1, hf2, hm1, hm2⟩
  · intro st pdu h
    simp [pduProcessSync, Nat.not_le.mpr h]

/-- Witness for C2 at a concrete in-range SYNC PDU and a short PDU. -/
theorem claim_C2_witness :
    validTime ((pduProcessSync sampleMacSt c2SyncPdu).1.tetraTime) ∧
    (pduProcessSync sampleMacSt [true]).1 = sampleMacSt := by
  constructor
  · exact (claim_C2.2.1 sampleMacSt c2SyncPdu (by decide)).2.2.2
      (by decide) (by decide) (by decide) (by decide)
  · exact claim_C2.2.2 sampleMacSt [true] (by decide)

/-! ## Claim C10: fill-bit stripping safety -/

theorem stz_nil : stripTrailingZerosCk [] = none := by
  rw [stripTrailingZerosCk.eq_def]
  split <;> simp_all

theorem stz_concat_true (l : Pdu) :
    stripTrailingZerosCk (l ++ [true]) = some (l ++ [true]) := by
  rw [stripTrailingZerosCk.eq_def]
  split <;> simp_all [List.getLast?_concat]

theorem stz_concat_false (l : Pdu) :
    stripTrailingZerosCk (l ++ [false]) = stripTrailingZerosCk l := by
  rw [stripTrailingZerosCk.eq_def]
  split <;> simp_all [List.getLast?_concat, List.dropLast_concat]

theorem stz_all_false : ∀ pdu : Pdu, (∀ b ∈ pdu, b = false) →
    stripTrailingZerosCk pdu = none := by
  intro pdu
  induction pdu using List.reverseRecOn with
  | nil => intro _; exact stz_nil
  | append_singleton l b ih =>
    intro h
    have hb : b = false := h b (by simp)
    subst hb
    rw [stz_concat_false]
    exact ih fun x hx => h x (by simp [hx])

theorem stz_has_true : ∀ pdu : Pdu, true ∈ pdu →
    (stripTrailingZerosCk pdu).isSome = true := by
  intro pdu
  induction pdu using List.reverseRecOn with
  | nil => intro h; simp at h
  | append_singleton l b ih =>
    intro h
    cases b
    · rw [stz_concat_false]
      refine ih ?_
      rcases List.mem_append.mp h with h' | h'
      · exact h'
      · simp at h'
    · rw [stz_concat_true]
      rfl

/-- C10: with fill-bit stripping enabled, `removeFillBits` performs
only in-bounds accesses (and terminates) on every non-empty PDU that
contains a 1 bit; on a non-empty all-zero PDU the trailing-zero loop
empties the PDU and then reads `at(size() - 1)` of an empty PDU, which
the checked model reports as `none`. -/
theorem claim_C10 : ∀ pdu : Pdu, pdu ≠ [] →
    (true ∈ pdu → (removeFillBitsCk pdu).isSome = true) ∧
    ((∀ b ∈ pdu, b = false) → removeFillBitsCk pdu = none) := by
  intro pdu hne
  rcases List.eq_nil_or_concat pdu with rfl | ⟨l, b, rfl⟩
  · exact absurd rfl hne
  · rw [List.concat_eq_append] at hne ⊢
    constructor
    · intro htrue
      cases b
      · have hl : true ∈ l := by
          rcases List.mem_append.mp htrue with h' | h'
          · exact h'
          · simp at h'
        simp only [removeFillBitsCk, List.getLast?_concat]
        obtain ⟨y, hy⟩ := Option.isSome_iff_exists.mp
          (stz_has_true _ (List.mem_append.mpr (Or.inl hl)))
        rw [hy]
        rfl
      · simp [removeFillBitsCk, List.getLast?_concat]
    · intro hfalse
      have hb : b = false := hfalse b (by simp)
      subst hb
      simp only [removeFillBitsCk, List.getLast?_concat]
      rw [stz_all_false _ hfalse]
      rfl

/-- Witness for C10: a PDU ending in a fill pattern is stripped in
bounds, an all-zero PDU faults. -/
theorem claim_C10_witness :
    (removeFillBitsCk [true, false, true]).isSome = true ∧
    removeFillBitsCk [false, false] = none := by
  have h1 := claim_C10 [true, false, true] (by decide)
  have h2 := claim_C10 [false, false] (by decide)
  exact ⟨h1.1 (by decide), h2.2 (by decide)⟩

/-! ## Claim C3: defragmenter encryption mode on MAC-END -/

/-- C3 counterexample: a reassembly started with encryption mode 1,
followed by a MAC-RESOURCE that puts encryption mode 2 in effect, then
a MAC-END.  The mode in effect at the MAC-END is 2, but the SDU is
delivered with mode 1 — the mode captured at fragmentation start — so
the MAC-END's mode does not override the earlier one. -/
theorem claim_C3_counterexample :
    c3St2.macAddress.encryptionMode = 2 ∧
    c3St2.defrag.stopped = false ∧
    c3St2.defrag.macAddress.encryptionMode = 1 ∧
    (pduProcessMacEnd c3St2 c3MacEndPdu).2 = c3Frag1 ++ c3Frag2 ∧
    (pduProcessMacEnd c3St2 c3MacEndPdu).2 ≠ [] ∧
    ((pduProcessMacEnd c3St2 c3MacEndPdu).1).macAddress.encryptionMode = 1 := by
  exact ⟨by decide, by decide, by decide, by decide, by decide, by decide⟩

/-- C3 as amended: whenever a MAC-END completes a reassembly (valid
length field, defragmenter running, matching SSI, non-empty buffer),
the encryption mode delivered with the reassembled TM-SDU is the one
captured by the defragmenter at fragmentation start, not the mode in
effect at the MAC-END. -/
theorem claim_C3 (st : MacSt) (pdu : Pdu)
    (hfill : Pdu.getValue pdu 3 1 = 0)
    (hlo : 2 ≤ Pdu.getValue pdu 5 6) (hhi : Pdu.getValue pdu 5 6 ≤ 34)
    (hstop : st.defrag.stopped = false)
    (hssi : st.macAddress.ssi = st.defrag.macAddress.ssi)
    (hne : st.defrag.sdu ≠ []) :
    ((pduProcessMacEnd st pdu).1).macAddress.encryptionMode =
      st.defrag.macAddress.encryptionMode ∧
    (pduProcessMacEnd st pdu).2 ≠ [] ∧
    ((pduProcessMacEnd st pdu).1).defrag.stopped = true := by
  have hval : ¬ (Pdu.getValue pdu 5 6 < 2 ∨ 34 < Pdu.getValue pdu 5 6) := by
    omega
  have hpos : 0 < st.defrag.sdu.length := List.length_pos.mpr hne
  simp only [pduProcessMacEnd]
  simp [hfill, hval, MacDefrag.append, MacDefrag.getSdu, MacDefrag.stop,
    hstop, hssi, List.append_eq_nil, hne, hpos]

/-- Witness for C3 at the concrete reassembly scenario. -/
theorem claim_C3_witness :
    ((pduProcessMacEnd c3St2 c3MacEndPdu).1).macAddress.encryptionMode =
      c3St2.defrag.macAddress.encryptionMode ∧
    (pduProcessMacEnd c3St2 c3MacEndPdu).2 ≠ [] ∧
    ((pduProcessMacEnd c3St2 c3MacEndPdu).1).defrag.stopped = true :=
  claim_C3 c3St2 c3MacEndPdu (by decide) (by decide) (by decide) (by decide)
    (by decide) (by decide)

/-! ## Claim C6: dissociation cap -/

theorem serviceUpperMacGo_le (k : ℕ) :
    ∀ pduCount : ℕ, 32 - pduCount ≤ k → pduCount < 32 →
    ∀ (st : MacSt) (pdu : Pdu) (ch : MacLogicalChannel) (tmSdu : Pdu)
      (psz : ℤ) (acc : List (Pdu × MacLogicalChannel)),
      (serviceUpperMacGo st pdu ch tmSdu psz pduCount acc).iterations ≤ 32 := by
  induction k with
  | zero => intro pduCount hk hlt; omega
  | succ k ih =>
    intro pduCount hk hlt st pdu ch tmSdu psz acc
    rw [serviceUpperMacGo.eq_def]
    dsimp only
    split
    · dsimp only; omega
    · split
      · next h => exact ih (pduCount + 1) (by omega) h.2.2 _ _ _ _ _ _
      · dsimp only; omega

/-- C6: for every input PDU and logical channel, the dissociation loop
of `serviceUpperMac` executes at most 32 iterations. -/
theorem claim_C6 : ∀ (st : MacSt) (pdu : Pdu) (ch : MacLogicalChannel),
    (serviceUpperMac st pdu ch).iterations ≤ 32 := by
  intro st pdu ch
  exact serviceUpperMacGo_le 32 0 (by omega) (by omega) _ _ _ _ _ _

/-! ## Claim C7: NULL PDU suppression -/

/-- C7: a MAC-RESOURCE PDU whose 3-bit address-type field is `000`
makes `pduProcessResource` return an empty SDU with
`pdu_size_in_mac = -1` and no state change, and the dissociation loop
performs a single iteration emitting nothing; the surrounding
`serviceUpperMac` changes only the recorded logical channel. -/
theorem claim_C7 (st : MacSt) (pdu : Pdu) (ch : MacLogicalChannel)
    (h0 : Pdu.getValue pdu 0 2 = 0) (h13 : Pdu.getValue pdu 13 3 = 0)
    (hch : ch = MacLogicalChannel.SCH_F ∨ ch = MacLogicalChannel.SCH_HD ∨
      ch = MacLogicalChannel.STCH ∨ ch = MacLogicalChannel.BNCH) :
    pduProcessResource st pdu ch = (st, [], false, -1) ∧
    (serviceUpperMac st pdu ch).emitted = [] ∧
    (serviceUpperMac st pdu ch).iterations = 1 ∧
    (serviceUpperMac st pdu ch).st =
      { st with macState := { st.macState with logicalChannel := ch } } := by
  have hres : ∀ s : MacSt, pduProcessResource s pdu ch = (s, [], false, -1) := by
    intro s
    simp [pduProcessResource, h13]
  refine ⟨hres st, ?_⟩
  have hgo : ∀ s : MacSt,
      serviceUpperMacGo s pdu ch [] 0 0 [] = ⟨s, [], 1⟩ := by
    intro s
    rw [serviceUpperMacGo.eq_def]
    rcases hch with rfl | rfl | rfl | rfl <;>
      simp [upperMacBody, h0, hres s]
  rw [serviceUpperMac, hgo]
  exact ⟨rfl, rfl, rfl⟩

/-- Witness for C7 at a concrete 40-bit all-zero MAC-RESOURCE NULL PDU
on SCH/F. -/
theorem claim_C7_witness :
    pduProcessResource sampleMacSt (List.replicate 40 false)
      MacLogicalChannel.SCH_F = (sampleMacSt, [], false, -1) ∧
    (serviceUpperMac sampleMacSt (List.replicate 40 false)
      MacLogicalChannel.SCH_F).emitted = [] ∧
    (serviceUpperMac sampleMacSt (List.replicate 40 false)
      MacLogicalChannel.SCH_F).iterations = 1 ∧
    (serviceUpperMac sampleMacSt (List.replicate 40 false)
      MacLogicalChannel.SCH_F).st =
      { sampleMacSt with macState :=
        { sampleMacSt.macState with logicalChannel := MacLogicalChannel.SCH_F } } :=
  claim_C7 sampleMacSt (List.replicate 40 false) MacLogicalChannel.SCH_F
    (by decide) (by decide) (Or.inl rfl)

/-! ## Claim C1: sync grace window -/

theorem getD_replicate_false : ∀ m i : ℕ,
    (List.replicate m false).getD i false = false := by
  intro m
  induction m with
  | zero => intro i; simp
  | succ n ih =>
    intro i
    cases i with
    | zero => simp [List.replicate_succ]
    | succ j => simp [List.replicate_succ, ih j]

theorem score_replicate_begin (m : ℕ) :
    patternAtPositionScore (List.replicate m false)
      NORMAL_TRAINING_SEQ_3_BEGIN 0 = 6 := by
  simp [patternAtPositionScore, NORMAL_TRAINING_SEQ_3_BEGIN, patternScoreAux,
    getD_replicate_false]

theorem score_replicate_end (m : ℕ) :
    patternAtPositionScore (List.replicate m false)
      NORMAL_TRAINING_SEQ_3_END 500 = 6 := by
  simp [patternAtPositionScore, NORMAL_TRAINING_SEQ_3_END, patternScoreAux,
    getD_replicate_false]

theorem stepZ_rel {s : DecoderState} {a : SyncAbs} (h : SyncRel s a) :
    SyncRel (stepZ s) (astep a) := by
  obtain ⟨h1, h2, h3, h4⟩ := h
  simp only [stepZ, rxSymbol, astep, h1, h2, h3, h4, ← List.replicate_succ',
    List.length_replicate, score_replicate_begin, score_replicate_end]
  by_cases hlt : a.len + 1 < FRAME_LEN
  · simp [hlt, SyncRel]
  · simp only [hlt, if_false]
    by_cases hdo : (a.sync && decide (a.counter % 510 = 0)) = true
    · simp [hdo, SyncRel]
    · simp [Bool.not_eq_true] at hdo
      simp [hdo, SyncRel]
      split_ifs <;> simp_all [SyncRel, List.replicate_succ]

theorem runZ_rel : ∀ (n : ℕ) {s : DecoderState} {a : SyncAbs},
    SyncRel s a → SyncRel (runZ n s) (arun n a) := by
  intro n
  induction n with
  | zero => intro s a h; exact h
  | succ m ih => intro s a h; exact ih (stepZ_rel h)

theorem arun_one (a : SyncAbs) : arun 1 a = astep a := rfl

theorem arun_add : ∀ (m n : ℕ) (a : SyncAbs),
    arun (m + n) a = arun n (arun m a) := by
  intro m
  induction m with
  | zero => intro n a; rw [Nat.zero_add]; rfl
  | succ k ih =>
    intro n a
    rw [Nat.succ_add]
    show arun (k + n) (astep a) = _
    rw [ih n (astep a)]
    rfl

theorem arun_refill : ∀ (k : ℕ) (sy : Bool) (c len n : ℕ), len + k ≤ 509 →
    arun k ⟨sy, c, len, n⟩ = ⟨sy, c, len + k, n⟩ := by
  intro k
  induction k with
  | zero => intro sy c len n _; rfl
  | succ j ih =>
    intro sy c len n hk
    show arun j (astep ⟨sy, c, len, n⟩) = _
    have hlt : len + 1 < FRAME_LEN := by simp only [FRAME_LEN]; omega
    have hstep : astep ⟨sy, c, len, n⟩ = ⟨sy, c, len + 1, n⟩ := by
      simp [astep, hlt]
    rw [hstep, ih sy c (len + 1) n (by omega)]
    have : len + 1 + j = len + (j + 1) := by omega
    rw [this]

theorem arun_slide : ∀ (j : ℕ) (c n : ℕ), j ≤ c % 510 → j < c →
    arun j ⟨true, c, 509, n⟩ = ⟨true, c - j, 509, n⟩ := by
  intro j
  induction j with
  | zero => intro c n _ _; rfl
  | succ i ih =>
    intro c n hmod hlt
    show arun i (astep ⟨true, c, 509, n⟩) = _
    have hc0 : c ≠ 0 := by omega
    have hm0 : ¬ (c % 510 = 0) := by omega
    have hc1 : ¬ (c - 1 = 0) := by omega
    have hstep : astep ⟨true, c, 509, n⟩ = ⟨true, c - 1, 509, n⟩ := by
      simp [astep, FRAME_LEN, hm0, hc0, hc1]
    rw [hstep, ih (c - 1) n (by omega) (by omega)]
    have : c - 1 - i = c - (i + 1) := by omega
    rw [this]

theorem astep_process (c n : ℕ) (h0 : c % 510 = 0) (hc : c ≠ 0) :
    astep ⟨true, c, 509, n⟩ = ⟨true, c - 1, 0, n + 1⟩ := by
  have hc510 : 510 ≤ c := by omega
  have hc1 : ¬ (c - 1 = 0) := by omega
  simp [astep, FRAME_LEN, h0, hc, hc1]

theorem astep_loss (n : ℕ) : astep ⟨true, 1, 509, n⟩ = ⟨false, 0, 509, n⟩ := by
  norm_num [astep, FRAME_LEN]

theorem arun_period (m n : ℕ) (hm : 2 ≤ m) :
    arun 1019 ⟨true, 510 * m - 1, 0, n⟩ =
      ⟨true, 510 * (m - 1) - 1, 0, n + 1⟩ := by
  have e1 : (1019 : ℕ) = 509 + (509 + 1) := by norm_num
  rw [e1, arun_add, arun_refill 509 true (510 * m - 1) 0 n (by omega)]
  rw [arun_add, arun_slide 509 (510 * m - 1) n (by omega) (by omega)]
  have e2 : 510 * m - 1 - 509 = 510 * (m - 1) := by omega
  rw [e2, arun_one, astep_process (510 * (m - 1)) n (by omega) (by omega)]

theorem arun_phases : ∀ k : ℕ, k ≤ 49 →
    arun (1019 * k) ⟨true, 25499, 0, 1⟩ =
      ⟨true, 510 * (50 - k) - 1, 0, 1 + k⟩ := by
  intro k
  induction k with
  | zero => intro _; rfl
  | succ j ih =>
    intro hk
    rw [Nat.mul_succ, arun_add, ih (by omega),
      arun_period (50 - j) (1 + j) (by omega)]
    have e1 : 50 - j - 1 = 50 - (j + 1) := by omega
    have e2 : 1 + j + 1 = 1 + (j + 1) := by omega
    rw [e1, e2]

theorem arun_50948 :
    arun 50948 ⟨true, 25499, 0, 1⟩ = ⟨true, 1, 509, 50⟩ := by
  have e1 : (50948 : ℕ) = (1019 * 49 + 509) + 508 := by norm_num
  rw [e1, arun_add, arun_add, arun_phases 49 (by norm_num)]
  have e2 : (510 * (50 - 49) - 1 : ℕ) = 509 := by norm_num
  have e3 : (1 + 49 : ℕ) = 50 := by norm_num
  rw [e2, e3, arun_refill 509 true 509 0 50 (by omega)]
  have e4 : (0 + 509 : ℕ) = 509 := by norm_num
  rw [e4, arun_slide 508 509 50 (by omega) (by omega)]

theorem arun_50949 :
    arun 50949 ⟨true, 25499, 0, 1⟩ = ⟨false, 0, 509, 50⟩ := by
  have e1 : (50949 : ℕ) = 50948 + 1 := by norm_num
  rw [e1, arun_add, arun_50948, arun_one]
  exact astep_loss 50

theorem astep_frozen {a : SyncAbs} (h : a.sync = false) :
    (astep a).sync = false ∧ (astep a).count = a.count := by
  simp only [astep, h]
  split_ifs <;> simp_all

theorem arun_frozen : ∀ (m : ℕ) {a : SyncAbs}, a.sync = false →
    (arun m a).sync = false ∧ (arun m a).count = a.count := by
  intro m
  induction m with
  | zero => intro a h; exact ⟨h, rfl⟩
  | succ k ih =>
    intro a h
    have hs := astep_frozen h
    have hr := ih hs.1
    exact ⟨hr.1, hr.2.trans hs.2⟩

theorem astep_count_le (a : SyncAbs) : a.count ≤ (astep a).count := by
  simp only [astep]
  split_ifs <;> simp_all

theorem arun_count_le : ∀ (n : ℕ) (a : SyncAbs),
    a.count ≤ (arun n a).count := by
  intro n
  induction n with
  | zero => intro a; exact le_refl _
  | succ k ih => intro a; exact le_trans (astep_count_le a) (ih (astep a))

set_option maxRecDepth 40000 in
theorem matchedState_eval : matchedState = ⟨true, 25499, [], 1⟩ := by decide

set_option maxRecDepth 40000 in
theorem matched_found : (rxSymbol preMatchState false).2 = true := by decide

theorem matched_rel : SyncRel matchedState ⟨true, 25499, 0, 1⟩ := by
  rw [matchedState_eval]
  exact ⟨rfl, rfl, rfl, rfl⟩

/-- C1 counterexample: after the matching `rxSymbol` call
(`processedCount = 1`), feeding only 0 bits (which never contain a
valid training sequence), the synchronizer is still synchronized at
call 50948 and loses synchronization at call 50949, at which point
`processFrame` has run 50 times in total — i.e. only 49 more times
after the match, not 50, and not at 510-bit boundaries. -/
theorem claim_C1_counterexample :
    (rxSymbol preMatchState false).2 = true ∧
    matchedState.processedCount = 1 ∧
    matchedState.syncBitCounter = 510 * 50 - 1 ∧
    (runZ 50948 matchedState).bIsSynchronized = true ∧
    (runZ 50949 matchedState).bIsSynchronized = false ∧
    (runZ 50949 matchedState).processedCount = 50 := by
  have h48 := runZ_rel 50948 matched_rel
  have h49 := runZ_rel 50949 matched_rel
  rw [arun_50948] at h48
  rw [arun_50949] at h49
  refine ⟨matched_found, ?_, ?_, h48.1, h49.1, h49.2.2.2⟩
  · rw [matchedState_eval]
  · rw [matchedState_eval]

/-- C1 as amended: after the matched burst (`processedCount = 1`), on
an all-zero continuation `processFrame` runs exactly 49 more times —
the `k`-th at call `1019 * k`, since the counter only decrements while
the 510-bit window is full — and from call 50949 on the synchronizer is
not synchronized and the total count stays at 50. -/
theorem claim_C1 (n k : ℕ) (hk : k ≤ 49) :
    (runZ n matchedState).processedCount ≤ 50 ∧
    (runZ (1019 * k) matchedState).processedCount = 1 + k ∧
    (runZ (1019 * k) matchedState).bIsSynchronized = true ∧
    (50949 ≤ n →
      (runZ n matchedState).processedCount = 50 ∧
      (runZ n matchedState).bIsSynchronized = false) := by
  have hphase := runZ_rel (1019 * k) matched_rel
  rw [arun_phases k hk] at hphase
  have hn := runZ_rel n matched_rel
  have hfr : ∀ m : ℕ, (arun m (⟨false, 0, 509, 50⟩ : SyncAbs)).sync = false ∧
      (arun m (⟨false, 0, 509, 50⟩ : SyncAbs)).count = 50 :=
    fun m => arun_frozen m rfl
  constructor
  · -- the count never exceeds 50
    rcases Nat.le_total n 50949 with hles | hges
    · have hsplit : arun 50949 (⟨true, 25499, 0, 1⟩ : SyncAbs) =
          arun (50949 - n) (arun n ⟨true, 25499, 0, 1⟩) := by
        rw [← arun_add]
        congr 1
        omega
      have hle := arun_count_le (50949 - n) (arun n ⟨true, 25499, 0, 1⟩)
      rw [← hsplit, arun_50949] at hle
      rw [hn.2.2.2]
      exact hle
    · have hsplit : arun n (⟨true, 25499, 0, 1⟩ : SyncAbs) =
          arun (n - 50949) ⟨false, 0, 509, 50⟩ := by
        conv_lhs => rw [show n = 50949 + (n - 50949) by omega]
        rw [arun_add, arun_50949]
      rw [hn.2.2.2, hsplit, (hfr (n - 50949)).2]
  · refine ⟨by rw [hphase.2.2.2], by rw [hphase.1], ?_⟩
    intro hge
    have hsplit : arun n (⟨true, 25499, 0, 1⟩ : SyncAbs) =
        arun (n - 50949) ⟨false, 0, 509, 50⟩ := by
      conv_lhs => rw [show n = 50949 + (n - 50949) by omega]
      rw [arun_add, arun_50949]
    constructor
    · rw [hn.2.2.2, hsplit, (hfr (n - 50949)).2]
    · rw [hn.1, hsplit, (hfr (n - 50949)).1]

/-- Witness for C1 at the sync-loss call and the last processed
burst. -/
theorem claim_C1_witness :
    (runZ 50949 matchedState).processedCount = 50 ∧
    (runZ 50949 matchedState).bIsSynchronized = false ∧
    (runZ (1019 * 49) matchedState).processedCount = 1 + 49 := by
  have h := claim_C1 50949 49 (by norm_num)
  exact ⟨(h.2.2.2 (by norm_num)).1, (h.2.2.2 (by norm_num)).2, h.2.1⟩

end Tetra
